import Mathlib

/-!
Verification development for the review-bot orchestration engine:
a shallow embedding of the thread state manager, the orchestration
iteration, the worker pool, the rate limiter, the message bus request
machinery and the interactive workflow state machine, together with
theorems settling the specification claims.
-/

namespace RabbitOrch

/-! ### Thread state (src/types/index.ts, ThreadState) -/

inductive ThreadStatus
  | pending
  | processing
  | pushed
  | resolved
  | rejected
  | needs_review
  | ci_failed
deriving DecidableEq

structure ThreadState where
  threadId : String
  status : ThreadStatus
  attempts : Nat
  commitSha : Option String := none
  lastError : Option String := none
  ciRunUrl : Option String := none
deriving DecidableEq

/-- The thread-state map held by the StateManager (`state` field). -/
def StateMap : Type := String → Option ThreadState

def emptyStateMap : StateMap := fun _ => none

/-- The lazily created default entry: status pending, attempts 0. -/
def defaultThreadState (tid : String) : ThreadState :=
  { threadId := tid, status := .pending, attempts := 0 }

/-! ### StateManager batch operations (src/src/lib/state-manager.ts) -/

/-- One loop step of markThreadsAsProcessing: take the entry or the
lazy default, set status processing and increment attempts. -/
def processOne (m : StateMap) (tid : String) : StateMap :=
  let st := (m tid).getD (defaultThreadState tid)
  fun t => if t = tid then
    some { st with status := .processing, attempts := st.attempts + 1 }
  else m t

def markThreadsAsProcessing (m : StateMap) (tids : List String) : StateMap :=
  tids.foldl processOne m

/-- One loop step of markThreadsAsPushed: only an existing entry is
updated; an absent id is skipped. -/
def pushOne (sha : String) (m : StateMap) (tid : String) : StateMap :=
  match m tid with
  | none => m
  | some st =>
      fun t => if t = tid then
        some { st with status := .pushed, commitSha := some sha }
      else m t

def markThreadsAsPushed (m : StateMap) (tids : List String) (sha : String) : StateMap :=
  tids.foldl (pushOne sha) m

/-- One loop step of markThreadsAsFailed: only an existing entry is
updated; an absent id is skipped. -/
def failOne (err : String) (url : Option String) (m : StateMap) (tid : String) : StateMap :=
  match m tid with
  | none => m
  | some st =>
      fun t => if t = tid then
        some { st with status := .ci_failed, lastError := some err, ciRunUrl := url }
      else m t

def markThreadsAsFailed (m : StateMap) (tids : List String) (err : String)
    (url : Option String) : StateMap :=
  tids.foldl (failOne err url) m

/-- Observable status of a thread id, defaulting an absent entry to
pending as the data model prescribes. -/
def effStatus (m : StateMap) (tid : String) : ThreadStatus :=
  ((m tid).map (·.status)).getD .pending

/-- Legality of one state-map mutation, as the spec states it: no
direct pending to resolved or rejected change, and a change to
ci_failed only from pushed. -/
def LegalStep (m m' : StateMap) : Prop :=
  ∀ tid,
    (¬(effStatus m tid = .pending ∧
        (effStatus m' tid = .resolved ∨ effStatus m' tid = .rejected)))
    ∧ ((effStatus m' tid = .ci_failed ∧ effStatus m tid ≠ .ci_failed) →
        effStatus m tid = .pushed)

/-! ### Orchestrator iteration (src/src/agents/orchestrator.ts, runIteration) -/

inductive ValidationResult
  | valid
  | invalid
  | needs_review
  | unpatchable
deriving DecidableEq

/-- Outcome of one analysis task as seen through Promise.allSettled:
either the promise rejected, or the analyzer returned a result (the
analyzer always sets the result threadId to the analyzed thread id). -/
inductive AnalysisOutcome
  | errored (reason : String)
  | ok (result : ValidationResult) (confidence : Rat) (patch : Option String)
deriving DecidableEq

inductive CheckRunConclusion
  | action_required
  | cancelled
  | failure
  | neutral
  | success
  | skipped
  | stale
  | timed_out
  | nullConclusion
deriving DecidableEq

/-- The inputs of one runIteration call that the external collaborators
determine: the fetched unresolved bot threads (ids), the per-thread
analysis outcomes (in thread order), the dry-run flag, whether the
batch patch apply succeeded, the patch error text, the commit sha
produced by commitAndPush, and the CI wait outcome. -/
structure IterationInput where
  repo : String
  prNumber : Nat
  threads : List String
  outcomes : List AnalysisOutcome
  dryRun : Bool
  patchOk : Bool
  patchErr : String
  sha : String
  ci : CheckRunConclusion
deriving DecidableEq

/-- Thread ids whose analysis classified VALID (collected in order). -/
def validIds (inp : IterationInput) : List String :=
  (inp.threads.zip inp.outcomes).filterMap fun p =>
    match p.2 with
    | .ok .valid _ _ => some p.1
    | _ => none

/-- Thread ids whose analysis classified INVALID. -/
def invalidIds (inp : IterationInput) : List String :=
  (inp.threads.zip inp.outcomes).filterMap fun p =>
    match p.2 with
    | .ok .invalid _ _ => some p.1
    | _ => none

/-- Thread ids routed to the needs-review bucket, paired with whether
the classification was UNPATCHABLE (which selects the comment text). -/
def needsReviewEntries (inp : IterationInput) : List (String × Bool) :=
  (inp.threads.zip inp.outcomes).filterMap fun p =>
    match p.2 with
    | .ok .needs_review _ _ => some (p.1, false)
    | .ok .unpatchable _ _ => some (p.1, true)
    | _ => none

/-- Error strings of rejected analysis promises. -/
def analysisErrors (inp : IterationInput) : List String :=
  (inp.threads.zip inp.outcomes).filterMap fun p =>
    match p.2 with
    | .errored reason => some reason
    | _ => none

/-- The CI checks URL the iteration attaches on CI failure. -/
def ciUrl (repo : String) (prNumber : Nat) (sha : String) : String :=
  "https://github.com/" ++ repo ++ "/pull/" ++ toString prNumber ++ "/checks?sha=" ++ sha

/-- The successive thread-state maps produced by the StateManager
mutations of one runIteration call, in order: mark processing, then on
the non-dry-run valid-fix path mark pushed, then on CI failure mark
failed. -/
def iterationStates (inp : IterationInput) (m0 : StateMap) : List StateMap :=
  if inp.threads = [] then []
  else
    let m1 := markThreadsAsProcessing m0 inp.threads
    let v := validIds inp
    if v ≠ [] ∧ inp.dryRun = false then
      if inp.patchOk = true then
        let m2 := markThreadsAsPushed m1 v inp.sha
        if inp.ci = .success then [m1, m2]
        else [m1, m2,
          markThreadsAsFailed m2 v "CI check failed"
            (some (ciUrl inp.repo inp.prNumber inp.sha))]
      else [m1]
    else [m1]

/-- The thread-state map after one runIteration call. -/
def iterationFinal (inp : IterationInput) (m0 : StateMap) : StateMap :=
  (iterationStates inp m0).getLastD m0

/-- The kinds of explanatory comments the iteration posts, carrying the
data interpolated into the comment body. -/
inductive CommentKind
  | ackResolved (sha : String)
  | ciFailure (url : String)
  | patchFailed (err : String)
  | invalidExplanation
  | needsReviewExplanation (unpatchable : Bool)
deriving DecidableEq

/-- The calls one runIteration issues to the patch and review-API
collaborators, in order. -/
inductive Effect
  | applyBatch (tids : List String)
  | commitPush (sha : String)
  | revertCommit (sha : String)
  | resolveThread (tid : String)
  | postComment (tid : String) (kind : CommentKind)
deriving DecidableEq

/-- The collaborator calls of one runIteration call, in program order:
batch apply and commit on the valid-fix path, then resolve plus
acknowledgment per thread on CI success, or one revert plus one failure
explanation per thread on CI failure, then the invalid and needs-review
comments. -/
def iterationEffects (inp : IterationInput) : List Effect :=
  if inp.threads = [] then []
  else
    let v := validIds inp
    let url := ciUrl inp.repo inp.prNumber inp.sha
    let main : List Effect :=
      if v ≠ [] ∧ inp.dryRun = false then
        Effect.applyBatch v ::
          (if inp.patchOk = true then
            Effect.commitPush inp.sha ::
              (if inp.ci = .success then
                v.flatMap fun tid =>
                  [Effect.resolveThread tid, Effect.postComment tid (.ackResolved inp.sha)]
              else
                Effect.revertCommit inp.sha ::
                  v.map fun tid => Effect.postComment tid (.ciFailure url))
          else
            v.map fun tid => Effect.postComment tid (.patchFailed inp.patchErr))
      else []
    let tailComments : List Effect :=
      if inp.dryRun = false then
        ((invalidIds inp).map fun tid => Effect.postComment tid .invalidExplanation)
          ++ ((needsReviewEntries inp).map fun p =>
                Effect.postComment p.1 (.needsReviewExplanation p.2))
      else []
    main ++ tailComments

/-- The per-iteration counters runIteration returns. -/
structure IterResult where
  processed : Nat
  resolved : Nat
  rejected : Nat
  needsReview : Nat
  errors : List String
deriving DecidableEq

/-- The counters of one runIteration call: processed counts every
settled analysis, resolved counts the batch only when CI succeeded (or
in dry run), rejected and needsReview count the buckets, errors collect
rejected analyses and the patch-apply failure. -/
def iterationResult (inp : IterationInput) : IterResult :=
  if inp.threads = [] then ⟨0, 0, 0, 0, []⟩
  else
    let v := validIds inp
    let resolved : Nat :=
      if v ≠ [] ∧ inp.dryRun = false then
        (if inp.patchOk = true ∧ inp.ci = .success then v.length else 0)
      else if inp.dryRun = true ∧ v ≠ [] then v.length else 0
    let errors : List String :=
      analysisErrors inp ++
        (if v ≠ [] ∧ inp.dryRun = false ∧ inp.patchOk = false then [inp.patchErr] else [])
    ⟨(inp.threads.zip inp.outcomes).length, resolved,
      (invalidIds inp).length, (needsReviewEntries inp).length, errors⟩

/-- All intermediate thread-state maps of a run of pipeline iterations,
at the granularity of the individual StateManager mutations. -/
def pipelineStates (m : StateMap) : List IterationInput → List StateMap
  | [] => []
  | inp :: rest => iterationStates inp m ++ pipelineStates (iterationFinal inp m) rest

/-! ### Worker pool (src/src/lib/worker-pool.ts) -/

/-- Pool state: ready workers, checked-out workers (the busy Set,
modelled as a duplicate-free list via set-style add and erase), and the
FIFO waiting queue of pending acquirers (caller tags). -/
structure PoolState (W : Type) where
  available : List W
  busy : List W
  waiting : List Nat
deriving DecidableEq

/-- Set.add: append only when absent. -/
def setAdd {W : Type} [DecidableEq W] (w : W) (l : List W) : List W :=
  if w ∈ l then l else w :: l

inductive AcquireResult (W : Type)
  | immediate (w : W)
  | queued
deriving DecidableEq

inductive ReleaseResult (W : Type)
  | notBusy
  | handedToWaiter (waiter : Nat) (w : W)
  | returnedToAvailable (w : W)
deriving DecidableEq

def initPool {W : Type} (ws : List W) : PoolState W :=
  { available := ws, busy := [], waiting := [] }

/-- acquire(): take the first available worker immediately, otherwise
enqueue the caller at the back of the waiting queue. -/
def acquire {W : Type} [DecidableEq W] (caller : Nat) (p : PoolState W) :
    AcquireResult W × PoolState W :=
  match p.available with
  | w :: rest => (.immediate w, { p with available := rest, busy := setAdd w p.busy })
  | [] => (.queued, { p with waiting := p.waiting ++ [caller] })

/-- release(): warn-and-ignore when the worker is not busy; otherwise
hand the worker directly to the first waiter, or return it to the
available list when nobody waits. -/
def release {W : Type} [DecidableEq W] (w : W) (p : PoolState W) :
    ReleaseResult W × PoolState W :=
  if w ∈ p.busy then
    let busyRest := p.busy.erase w
    match p.waiting with
    | waiter :: restW =>
        (.handedToWaiter waiter w, { p with busy := setAdd w busyRest, waiting := restW })
    | [] =>
        (.returnedToAvailable w, { p with busy := busyRest, available := p.available ++ [w] })
  else (.notBusy, p)

/-- A sequence of acquire() calls, returning the per-call results. -/
def acquireAll {W : Type} [DecidableEq W] : List Nat → PoolState W →
    List (AcquireResult W) × PoolState W
  | [], p => ([], p)
  | c :: cs, p =>
      let r := acquire c p
      let rs := acquireAll cs r.2
      (r.1 :: rs.1, rs.2)

/-- A sequence of release() calls, returning the per-call results. -/
def releaseAll {W : Type} [DecidableEq W] : List W → PoolState W →
    List (ReleaseResult W) × PoolState W
  | [], p => ([], p)
  | w :: ws, p =>
      let r := release w p
      let rs := releaseAll ws r.2
      (r.1 :: rs.1, rs.2)

/-- One evaluation of the drain() loop head on the observed pool state:
exit when nothing is busy and nobody waits, throw when the pool holds
no worker at all while waiters exist, otherwise sleep and poll again. -/
inductive DrainOutcome
  | done
  | raise
  | stillWaiting
deriving DecidableEq

def drainStep {W : Type} (p : PoolState W) : DrainOutcome :=
  if p.busy.length > 0 ∨ p.waiting.length > 0 then
    if p.available.length + p.busy.length = 0 ∧ p.waiting.length > 0 then .raise
    else .stillWaiting
  else .done

/-- The drain() polling loop over the sequence of pool states it
observes at each loop head. -/
def drainRun {W : Type} : List (PoolState W) → DrainOutcome
  | [] => .stillWaiting
  | p :: rest =>
      match drainStep p with
      | .done => .done
      | .raise => .raise
      | .stillWaiting => drainRun rest

/-! ### Rate limiter (src/src/lib/state-manager.ts, RateLimiter) -/

structure RateLimitConfig where
  maxRequestsPerHour : Rat
  maxRequestsPerMinute : Rat
  maxConcurrent : Rat
  backoffMultiplier : Rat
  maxBackoffMs : Rat
deriving DecidableEq

structure RateLimiterState where
  requestTimestamps : List Rat
  concurrentRequests : Rat
  backoffUntil : Rat
  consecutiveErrors : Nat
deriving DecidableEq

def initRateLimiter : RateLimiterState :=
  { requestTimestamps := [], concurrentRequests := 0, backoffUntil := 0, consecutiveErrors := 0 }

inductive LimitReason
  | backoff
  | concurrent
  | hourly
  | minute
deriving DecidableEq

structure CheckResult where
  allowed : Bool
  waitMs : Rat
  reason : Option LimitReason
deriving DecidableEq

/-- Math.min over a list of timestamps; the empty case (Infinity in the
source) is unreachable in the branches that call it, because they
require the list length to reach a strictly positive configured bound. -/
def listMin : List Rat → Rat
  | [] => 0
  | x :: xs => xs.foldl min x

/-- checkLimit(): active backoff window, then the concurrency cap, then
the hourly window (pruning entries older than one hour), then the
minute window; the pruned timestamp list is written back. -/
def checkLimit (cfg : RateLimitConfig) (now : Rat) (s : RateLimiterState) :
    CheckResult × RateLimiterState :=
  if now < s.backoffUntil then
    ({ allowed := false, waitMs := s.backoffUntil - now, reason := some .backoff }, s)
  else if cfg.maxConcurrent ≤ s.concurrentRequests then
    ({ allowed := false, waitMs := 1000, reason := some .concurrent }, s)
  else
    let oneHourAgo := now - 3600000
    let oneMinuteAgo := now - 60000
    let ts := s.requestTimestamps.filter fun t => oneHourAgo < t
    let s' := { s with requestTimestamps := ts }
    if cfg.maxRequestsPerHour ≤ (ts.length : Rat) then
      let oldest := listMin ts
      ({ allowed := false, waitMs := oldest + 3600000 - now, reason := some .hourly }, s')
    else
      let tsMinute := ts.filter fun t => oneMinuteAgo < t
      if cfg.maxRequestsPerMinute ≤ (tsMinute.length : Rat) then
        let oldest := listMin tsMinute
        ({ allowed := false, waitMs := oldest + 60000 - now, reason := some .minute }, s')
      else ({ allowed := true, waitMs := 0, reason := none }, s')

/-- endRequest(success): decrement the concurrency counter (floored at
zero); on success reset consecutiveErrors, on failure increment it and
set the exponential backoff window. -/
def endRequest (cfg : RateLimitConfig) (success : Bool) (now : Rat)
    (s : RateLimiterState) : RateLimiterState :=
  let s1 := { s with concurrentRequests := max 0 (s.concurrentRequests - 1) }
  if success then { s1 with consecutiveErrors := 0 }
  else
    let n := s1.consecutiveErrors + 1
    let backoffMs := min cfg.maxBackoffMs (1000 * cfg.backoffMultiplier ^ n)
    { s1 with consecutiveErrors := n, backoffUntil := now + backoffMs }

/-- handleRateLimitError(minutes, seconds): translate an explicit retry
after signal into a backoff window. -/
def handleRateLimitError (waitMinutes waitSeconds : Rat)
    (now : Rat) (s : RateLimiterState) : RateLimiterState :=
  let waitMs := (waitMinutes * 60 + waitSeconds) * 1000
  { s with backoffUntil := now + waitMs }

/-- n consecutive failing endRequest(false) calls at the given times. -/
def endRequestFailures (cfg : RateLimitConfig) (s : RateLimiterState)
    (times : List Rat) : RateLimiterState :=
  times.foldl (fun st t => endRequest cfg false t st) s

/-! ### Message bus (src/src/lib/message-bus.ts) -/

/-- A full AgentMessage as constructed inside the bus. -/
structure AgentMessage where
  id : String
  type : String
  source : String
  target : String
  payload : String
  correlationId : Option String
  timestamp : Rat
deriving DecidableEq

/-- The caller-supplied part of a message (id and timestamp are filled
in by the bus). -/
structure DraftMessage where
  type : String
  source : String
  target : String
  payload : String
  correlationId : Option String
deriving DecidableEq

def MAX_MESSAGE_LOG_SIZE : Nat := 10000

/-- Append to the bounded message log, evicting the oldest entry once
the log exceeds the capacity. -/
def pushLog (log : List AgentMessage) (msg : AgentMessage) : List AgentMessage :=
  let l := log ++ [msg]
  if MAX_MESSAGE_LOG_SIZE < l.length then l.tail else l

structure BusState where
  messageLog : List AgentMessage
deriving DecidableEq

/-- send(): build the full message, append it to the log, emit it. The
freshly generated uuid and the clock reading are passed in. -/
def send (bus : BusState) (newId : String) (now : Rat) (draft : DraftMessage) :
    BusState × AgentMessage :=
  let full : AgentMessage :=
    { id := newId, type := draft.type, source := draft.source, target := draft.target,
      payload := draft.payload, correlationId := draft.correlationId, timestamp := now }
  ({ messageLog := pushLog bus.messageLog full }, full)

/-- The request path also appends its outgoing message to the log
before emitting it. -/
def requestEmit (bus : BusState) (newId : String) (now : Rat) (draft : DraftMessage) :
    BusState × AgentMessage :=
  let full : AgentMessage :=
    { id := newId, type := draft.type, source := draft.source, target := draft.target,
      payload := draft.payload, correlationId := draft.correlationId, timestamp := now }
  ({ messageLog := pushLog bus.messageLog full }, full)

/-- respond(): build the correlated response and emit it on the private
response channel of the original source; the log is not touched. -/
def respond (bus : BusState) (newId : String) (now : Rat)
    (originalMessage : AgentMessage) (payload : String) : BusState × AgentMessage :=
  let responseMessage : AgentMessage :=
    { id := newId, type := "RESPONSE", source := originalMessage.target,
      target := originalMessage.source ++ "-response", payload := payload,
      correlationId := some originalMessage.id, timestamp := now }
  (bus, responseMessage)

/-! ### Message bus request lifecycle (src/src/lib/message-bus.ts, request) -/

/-- The events one pending request can observe: a response message
emitted on its response channel, or its timeout firing. -/
inductive BusEvent
  | response (corrId : String) (payload : String)
  | timeoutFire
deriving DecidableEq

inductive ReqOutcome
  | resolvedWith (payload : String)
  | rejectedTimeout
deriving DecidableEq

/-- The runtime registrations of one request() call: the channel
handler, the pendingResponses entry, the armed timer, and how the
promise settled. -/
structure ReqRuntime where
  handlerOn : Bool
  pendingOn : Bool
  timerOn : Bool
  outcome : Option ReqOutcome
deriving DecidableEq

def initReq : ReqRuntime :=
  { handlerOn := true, pendingOn := true, timerOn := true, outcome := none }

/-- One event against one pending request, following the source: an
emission reaches the handler only while it is registered; the handler
returns early on a correlationId mismatch; a match clears the timer,
deletes the pending entry, deregisters the handler and resolves; the
timeout deregisters the handler, deletes the pending entry and rejects.
A promise settles at most once. -/
def reqStep (messageId : String) (s : ReqRuntime) (e : BusEvent) : ReqRuntime :=
  match e with
  | .response corrId payload =>
      if s.handlerOn = false then s
      else if corrId ≠ messageId then s
      else
        { handlerOn := false, pendingOn := false, timerOn := false,
          outcome := some (s.outcome.getD (.resolvedWith payload)) }
  | .timeoutFire =>
      if s.timerOn = false then s
      else
        { handlerOn := false, pendingOn := false, timerOn := false,
          outcome := some (s.outcome.getD .rejectedTimeout) }

def reqRunFrom (messageId : String) (s : ReqRuntime) (events : List BusEvent) : ReqRuntime :=
  events.foldl (reqStep messageId) s

/-- The lifecycle of one request() call over the events it observes. -/
def reqRun (messageId : String) (events : List BusEvent) : ReqRuntime :=
  reqRunFrom messageId initReq events

/-! ### Workflow state machine (WorkflowStateManager) -/

structure Decision where
  isValid : Bool
  reason : Option String
  fixApplied : Option Bool := none
  commitSha : Option String := none
deriving DecidableEq

structure WorkflowState where
  repo : String
  prNumber : Nat
  threads : List String
  currentIndex : Nat
  processed : Nat
  decisions : List (String × Decision)
  startedAt : Rat
  lastUpdated : Rat
deriving DecidableEq

/-- create(): a fresh workflow over the loaded threads. -/
def createWorkflow (repo : String) (prNumber : Nat) (threads : List String)
    (now : Rat) : WorkflowState :=
  { repo := repo, prNumber := prNumber, threads := threads, currentIndex := 0,
    processed := 0, decisions := [], startedAt := now, lastUpdated := now }

/-- Map.set on the decisions table. -/
def setDecision (ds : List (String × Decision)) (tid : String) (d : Decision) :
    List (String × Decision) :=
  (tid, d) :: ds.filter fun p => p.1 ≠ tid

/-- recordDecision(): store the validation verdict for one thread. -/
def recordDecision (s : WorkflowState) (tid : String) (isValid : Bool)
    (reason : Option String) (now : Rat) : WorkflowState :=
  { s with decisions := setDecision s.decisions tid { isValid := isValid, reason := reason },
           lastUpdated := now }

/-- recordApplication(): mark the decision of one thread as applied. -/
def recordApplication (s : WorkflowState) (tid : String) (sha : String)
    (now : Rat) : WorkflowState :=
  let decisions :=
    match (s.decisions.find? fun p => p.1 = tid) with
    | some p => setDecision s.decisions tid
        { p.2 with fixApplied := some true, commitSha := some sha }
    | none => s.decisions
  { s with decisions := decisions, lastUpdated := now }

/-- advance(): move currentIndex forward, capped at the thread count,
and report whether threads remain. -/
def advance (s : WorkflowState) (now : Rat) : WorkflowState × Bool :=
  let s' := { s with currentIndex := min (s.currentIndex + 1) s.threads.length,
                     processed := s.processed + 1, lastUpdated := now }
  (s', decide (s'.currentIndex < s'.threads.length))

/-- The workflow states reachable through the mutating operations of
the WorkflowStateManager. -/
inductive WfReachable : WorkflowState → Prop
  | created (repo : String) (prNumber : Nat) (threads : List String) (now : Rat) :
      WfReachable (createWorkflow repo prNumber threads now)
  | advanced {s : WorkflowState} (now : Rat) :
      WfReachable s → WfReachable (advance s now).1
  | decided {s : WorkflowState} (tid : String) (isValid : Bool)
      (reason : Option String) (now : Rat) :
      WfReachable s → WfReachable (recordDecision s tid isValid reason now)
  | applied {s : WorkflowState} (tid : String) (sha : String) (now : Rat) :
      WfReachable s → WfReachable (recordApplication s tid sha now)

/-! ### Effect predicates and concrete iteration inputs -/

def isRevert : Effect → Bool
  | .revertCommit _ => true
  | _ => false

def isResolveEffect : Effect → Bool
  | .resolveThread _ => true
  | _ => false

def isCiFailureComment : Effect → Bool
  | .postComment _ (.ciFailure _) => true
  | _ => false

/-- A concrete iteration: two bot threads, one valid and one invalid
analysis, a successful patch apply, and a failing CI run. -/
def inpC1 : IterationInput :=
  { repo := "o/r", prNumber := 7, threads := ["t1", "t2"],
    outcomes := [.ok .valid 1 (some "diff"), .ok .invalid 0 none],
    dryRun := false, patchOk := true, patchErr := "", sha := "abc", ci := .failure }

/-- A concrete original message for exercising respond(). -/
def msgC6 : AgentMessage :=
  { id := "m1", type := "ANALYZE_THREAD", source := "orchestrator", target := "github",
    payload := "p", correlationId := none, timestamp := 0 }

/-- A concrete freshly created workflow. -/
def wfC7 : WorkflowState := createWorkflow "o/r" 3 ["a"] 0

/-- A concrete rate-limiter configuration. -/
def cfgC3 : RateLimitConfig :=
  { maxRequestsPerHour := 100, maxRequestsPerMinute := 10, maxConcurrent := 3,
    backoffMultiplier := 2, maxBackoffMs := 300000 }

/-- A concrete rate-limiter state inside an active backoff window. -/
def sC10 : RateLimiterState :=
  { requestTimestamps := [], concurrentRequests := 1, backoffUntil := 100,
    consecutiveErrors := 2 }

/-! ## Theorems -/

theorem filter_map_nil {α β : Type} (p : β → Bool) (f : α → β) (l : List α)
    (h : ∀ a, p (f a) = false) : (l.map f).filter p = [] := by
  induction l with
  | nil => rfl
  | cons a as ih => simp [h a, ih]

theorem filter_map_all {α β : Type} (p : β → Bool) (f : α → β) (l : List α)
    (h : ∀ a, p (f a) = true) : (l.map f).filter p = l.map f := by
  induction l with
  | nil => rfl
  | cons a as ih => simp [h a, ih]

/-! ### StateManager basic lemmas -/

theorem markProcessing_cons (m : StateMap) (a : String) (as : List String) :
    markThreadsAsProcessing m (a :: as) = markThreadsAsProcessing (processOne m a) as := rfl

theorem markPushed_cons (m : StateMap) (a : String) (as : List String) (sha : String) :
    markThreadsAsPushed m (a :: as) sha = markThreadsAsPushed (pushOne sha m a) as sha := rfl

theorem markFailed_cons (m : StateMap) (a : String) (as : List String) (err : String)
    (url : Option String) :
    markThreadsAsFailed m (a :: as) err url =
      markThreadsAsFailed (failOne err url m a) as err url := rfl

theorem processOne_apply_ne (m : StateMap) (tid t : String) (h : t ≠ tid) :
    processOne m tid t = m t := by
  simp [processOne, h]

theorem processOne_isSome (m : StateMap) (tid t : String) (h : (m t).isSome) :
    ((processOne m tid) t).isSome := by
  by_cases hta : t = tid
  · subst hta; simp [processOne]
  · rw [processOne_apply_ne m tid t hta]; exact h

theorem markProcessing_isSome_mono (tids : List String) :
    ∀ (m : StateMap) (t : String), (m t).isSome →
      ((markThreadsAsProcessing m tids) t).isSome := by
  induction tids with
  | nil => intro m t h; exact h
  | cons a as ih =>
      intro m t h
      rw [markProcessing_cons]
      exact ih (processOne m a) t (processOne_isSome m a t h)

theorem markProcessing_isSome_of_mem (tids : List String) :
    ∀ (m : StateMap) (t : String), t ∈ tids →
      ((markThreadsAsProcessing m tids) t).isSome := by
  induction tids with
  | nil => intro m t h; cases h
  | cons a as ih =>
      intro m t h
      rw [markProcessing_cons]
      rcases List.mem_cons.mp h with h1 | h2
      · subst h1
        exact markProcessing_isSome_mono as (processOne m t) t (by simp [processOne])
      · exact ih (processOne m a) t h2

theorem pushOne_apply_ne (sha : String) (m : StateMap) (tid t : String) (h : t ≠ tid) :
    pushOne sha m tid t = m t := by
  unfold pushOne
  cases m tid with
  | none => rfl
  | some st => simp [h]

theorem pushOne_none (sha : String) (m : StateMap) (tid t : String) (h : m t = none) :
    pushOne sha m tid t = none := by
  by_cases hta : t = tid
  · subst hta
    unfold pushOne
    rw [h]
    exact h
  · rw [pushOne_apply_ne sha m tid t hta]; exact h

theorem pushOne_apply_self (sha : String) (m : StateMap) (tid : String)
    (st : ThreadState) (h : m tid = some st) :
    pushOne sha m tid tid = some { st with status := .pushed, commitSha := some sha } := by
  unfold pushOne
  rw [h]
  simp

theorem pushOne_isSome (sha : String) (m : StateMap) (tid t : String)
    (h : (m t).isSome) : ((pushOne sha m tid) t).isSome := by
  by_cases hta : t = tid
  · subst hta
    unfold pushOne
    cases hm : m t with
    | none => rw [hm] at h; cases h
    | some st => simp
  · rw [pushOne_apply_ne sha m tid t hta]; exact h

theorem markPushed_not_mem (sha : String) (tids : List String) :
    ∀ (m : StateMap) (t : String), t ∉ tids →
      markThreadsAsPushed m tids sha t = m t := by
  induction tids with
  | nil => intro m t _; rfl
  | cons a as ih =>
      intro m t h
      rw [markPushed_cons]
      rw [ih (pushOne sha m a) t (fun hmem => h (List.mem_cons_of_mem a hmem))]
      exact pushOne_apply_ne sha m a t (fun he => h (he ▸ List.mem_cons_self a as))

theorem markPushed_none (sha : String) (tids : List String) :
    ∀ (m : StateMap) (t : String), m t = none →
      markThreadsAsPushed m tids sha t = none := by
  induction tids with
  | nil => intro m t h; exact h
  | cons a as ih =>
      intro m t h
      rw [markPushed_cons]
      exact ih (pushOne sha m a) t (pushOne_none sha m a t h)

theorem markPushed_mem (sha : String) (tids : List String) :
    ∀ (m : StateMap) (t : String), t ∈ tids → (m t).isSome →
      ∃ st, markThreadsAsPushed m tids sha t = some st ∧
        st.status = .pushed ∧ st.commitSha = some sha := by
  induction tids with
  | nil => intro m t h; cases h
  | cons a as ih =>
      intro m t h hs
      rw [markPushed_cons]
      by_cases hmem : t ∈ as
      · exact ih (pushOne sha m a) t hmem (pushOne_isSome sha m a t hs)
      · have hta : t = a := by
          rcases List.mem_cons.mp h with h1 | h2
          · exact h1
          · exact absurd h2 hmem
        subst hta
        rcases Option.isSome_iff_exists.mp hs with ⟨st, hst⟩
        rw [markPushed_not_mem sha as (pushOne sha m t) t hmem]
        exact ⟨_, pushOne_apply_self sha m t st hst, rfl, rfl⟩

theorem failOne_apply_ne (err : String) (url : Option String) (m : StateMap)
    (tid t : String) (h : t ≠ tid) : failOne err url m tid t = m t := by
  unfold failOne
  cases m tid with
  | none => rfl
  | some st => simp [h]

theorem failOne_none (err : String) (url : Option String) (m : StateMap)
    (tid t : String) (h : m t = none) : failOne err url m tid t = none := by
  by_cases hta : t = tid
  · subst hta
    unfold failOne
    rw [h]
    exact h
  · rw [failOne_apply_ne err url m tid t hta]; exact h

theorem failOne_apply_self (err : String) (url : Option String) (m : StateMap)
    (tid : String) (st : ThreadState) (h : m tid = some st) :
    failOne err url m tid tid =
      some { st with status := .ci_failed, lastError := some err, ciRunUrl := url } := by
  unfold failOne
  rw [h]
  simp

theorem failOne_isSome (err : String) (url : Option String) (m : StateMap)
    (tid t : String) (h : (m t).isSome) : ((failOne err url m tid) t).isSome := by
  by_cases hta : t = tid
  · subst hta
    unfold failOne
    cases hm : m t with
    | none => rw [hm] at h; cases h
    | some st => simp
  · rw [failOne_apply_ne err url m tid t hta]; exact h

theorem failOne_isSome_iff (err : String) (url : Option String) (m : StateMap)
    (tid t : String) : ((failOne err url m tid) t).isSome ↔ (m t).isSome := by
  constructor
  · intro h
    by_contra hn
    rw [Option.not_isSome_iff_eq_none] at hn
    rw [failOne_none err url m tid t hn] at h
    cases h
  · exact failOne_isSome err url m tid t

theorem markFailed_not_mem (err : String) (url : Option String) (tids : List String) :
    ∀ (m : StateMap) (t : String), t ∉ tids →
      markThreadsAsFailed m tids err url t = m t := by
  induction tids with
  | nil => intro m t _; rfl
  | cons a as ih =>
      intro m t h
      rw [markFailed_cons]
      rw [ih (failOne err url m a) t (fun hmem => h (List.mem_cons_of_mem a hmem))]
      exact failOne_apply_ne err url m a t (fun he => h (he ▸ List.mem_cons_self a as))

theorem markFailed_none (err : String) (url : Option String) (tids : List String) :
    ∀ (m : StateMap) (t : String), m t = none →
      markThreadsAsFailed m tids err url t = none := by
  induction tids with
  | nil => intro m t h; exact h
  | cons a as ih =>
      intro m t h
      rw [markFailed_cons]
      exact ih (failOne err url m a) t (failOne_none err url m a t h)

theorem markFailed_mem (err : String) (url : Option String) (tids : List String) :
    ∀ (m : StateMap) (t : String), t ∈ tids → (m t).isSome →
      ∃ st, markThreadsAsFailed m tids err url t = some st ∧
        st.status = .ci_failed ∧ st.lastError = some err ∧ st.ciRunUrl = url := by
  induction tids with
  | nil => intro m t h; cases h
  | cons a as ih =>
      intro m t h hs
      rw [markFailed_cons]
      by_cases hmem : t ∈ as
      · exact ih (failOne err url m a) t hmem (failOne_isSome err url m a t hs)
      · have hta : t = a := by
          rcases List.mem_cons.mp h with h1 | h2
          · exact h1
          · exact absurd h2 hmem
        subst hta
        rcases Option.isSome_iff_exists.mp hs with ⟨st, hst⟩
        rw [markFailed_not_mem err url as (failOne err url m t) t hmem]
        exact ⟨_, failOne_apply_self err url m t st hst, rfl, rfl, rfl⟩

/-! ### Status-change characterizations and transition legality -/

theorem effStatus_processOne (m : StateMap) (tid t : String) :
    effStatus (processOne m tid) t = effStatus m t ∨
      effStatus (processOne m tid) t = .processing := by
  by_cases hta : t = tid
  · subst hta
    right
    simp [effStatus, processOne]
  · left
    simp [effStatus, processOne_apply_ne m tid t hta]

theorem effStatus_markProcessing (tids : List String) :
    ∀ (m : StateMap) (t : String),
      effStatus (markThreadsAsProcessing m tids) t = effStatus m t ∨
        effStatus (markThreadsAsProcessing m tids) t = .processing := by
  induction tids with
  | nil => intro m t; left; rfl
  | cons a as ih =>
      intro m t
      rw [markProcessing_cons]
      rcases ih (processOne m a) t with h2 | h2
      · rw [h2]
        exact effStatus_processOne m a t
      · right; exact h2

theorem effStatus_pushOne (sha : String) (m : StateMap) (tid t : String) :
    effStatus (pushOne sha m tid) t = effStatus m t ∨
      effStatus (pushOne sha m tid) t = .pushed := by
  by_cases hta : t = tid
  · subst hta
    cases hm : m t with
    | none =>
        left
        unfold pushOne
        rw [hm]
    | some st =>
        right
        simp [effStatus, pushOne_apply_self sha m t st hm]
  · left
    simp [effStatus, pushOne_apply_ne sha m tid t hta]

theorem effStatus_markPushed (sha : String) (tids : List String) :
    ∀ (m : StateMap) (t : String),
      effStatus (markThreadsAsPushed m tids sha) t = effStatus m t ∨
        effStatus (markThreadsAsPushed m tids sha) t = .pushed := by
  induction tids with
  | nil => intro m t; left; rfl
  | cons a as ih =>
      intro m t
      rw [markPushed_cons]
      rcases ih (pushOne sha m a) t with h2 | h2
      · rw [h2]
        exact effStatus_pushOne sha m a t
      · right; exact h2

theorem effStatus_failOne (err : String) (url : Option String) (m : StateMap)
    (tid t : String) :
    effStatus (failOne err url m tid) t = effStatus m t ∨
      (effStatus (failOne err url m tid) t = .ci_failed ∧ (m t).isSome ∧ t = tid) := by
  by_cases hta : t = tid
  · subst hta
    cases hm : m t with
    | none =>
        left
        unfold failOne
        rw [hm]
    | some st =>
        right
        refine ⟨?_, by simp [hm], rfl⟩
        simp [effStatus, failOne_apply_self err url m t st hm]
  · left
    simp [effStatus, failOne_apply_ne err url m tid t hta]

theorem effStatus_markFailed (err : String) (url : Option String) (tids : List String) :
    ∀ (m : StateMap) (t : String),
      effStatus (markThreadsAsFailed m tids err url) t = effStatus m t ∨
        (effStatus (markThreadsAsFailed m tids err url) t = .ci_failed ∧
          (m t).isSome ∧ t ∈ tids) := by
  induction tids with
  | nil => intro m t; left; rfl
  | cons a as ih =>
      intro m t
      rw [markFailed_cons]
      rcases ih (failOne err url m a) t with h2 | ⟨h2, hsome, hmem⟩
      · rw [h2]
        rcases effStatus_failOne err url m a t with h1 | ⟨h1, hsome, hta⟩
        · left; exact h1
        · right; exact ⟨h1, hsome, hta ▸ List.mem_cons_self a as⟩
      · right
        exact ⟨h2, (failOne_isSome_iff err url m a t).mp hsome,
          List.mem_cons_of_mem a hmem⟩

/-- A mutation whose only status change is to a status other than
resolved, rejected and ci_failed is a legal step. -/
theorem legalStep_of_change (m m' : StateMap) (s0 : ThreadStatus)
    (hchar : ∀ t, effStatus m' t = effStatus m t ∨ effStatus m' t = s0)
    (h1 : s0 ≠ .resolved) (h2 : s0 ≠ .rejected) (h3 : s0 ≠ .ci_failed) :
    LegalStep m m' := by
  intro tid
  constructor
  · rintro ⟨hpend, hbad⟩
    rcases hchar tid with h | h
    · rcases hbad with hb | hb
      · rw [hb, hpend] at h; cases h
      · rw [hb, hpend] at h; cases h
    · rcases hbad with hb | hb
      · exact h1 (hb ▸ h).symm
      · exact h2 (hb ▸ h).symm
  · rintro ⟨hci, hne⟩
    rcases hchar tid with h | h
    · exact absurd (h ▸ hci) hne
    · exact absurd (hci ▸ h).symm h3

theorem legalStep_markProcessing (m : StateMap) (tids : List String) :
    LegalStep m (markThreadsAsProcessing m tids) :=
  legalStep_of_change m _ .processing (fun t => effStatus_markProcessing tids m t)
    (by decide) (by decide) (by decide)

theorem legalStep_markPushed (m : StateMap) (tids : List String) (sha : String) :
    LegalStep m (markThreadsAsPushed m tids sha) :=
  legalStep_of_change m _ .pushed (fun t => effStatus_markPushed sha tids m t)
    (by decide) (by decide) (by decide)

/-- Marking threads failed is legal provided every targeted thread is
currently pushed, which is how the pipeline invokes it. -/
theorem legalStep_markFailed (m : StateMap) (tids : List String) (err : String)
    (url : Option String) (hp : ∀ t ∈ tids, effStatus m t = .pushed) :
    LegalStep m (markThreadsAsFailed m tids err url) := by
  intro tid
  constructor
  · rintro ⟨hpend, hbad⟩
    rcases effStatus_markFailed err url tids m tid with h | ⟨hcf, _, _⟩
    · rcases hbad with hb | hb
      · rw [hb, hpend] at h; cases h
      · rw [hb, hpend] at h; cases h
    · rcases hbad with hb | hb
      · rw [hb] at hcf; cases hcf
      · rw [hb] at hcf; cases hcf
  · rintro ⟨hci, hne⟩
    rcases effStatus_markFailed err url tids m tid with h | ⟨_, _, hmem⟩
    · exact absurd (h ▸ hci) hne
    · exact hp tid hmem

theorem chain_append_getLastD {α : Type} (R : α → α → Prop) :
    ∀ (l1 : List α) (a : α) (l2 : List α),
      List.Chain R a l1 → List.Chain R (l1.getLastD a) l2 →
        List.Chain R a (l1 ++ l2) := by
  intro l1
  induction l1 with
  | nil => intro a l2 _ h2; exact h2
  | cons b bs ih =>
      intro a l2 h1 h2
      cases h1 with
      | cons hab hbs =>
          exact List.Chain.cons hab (ih b l2 hbs (List.getLastD_cons a b bs ▸ h2))

theorem validIds_subset (inp : IterationInput) (tid : String)
    (h : tid ∈ validIds inp) : tid ∈ inp.threads := by
  unfold validIds at h
  rcases List.mem_filterMap.mp h with ⟨p, hp, he⟩
  obtain ⟨t, o⟩ := p
  have ht : t ∈ inp.threads := (List.of_mem_zip hp).1
  cases o with
  | errored reason => cases he
  | ok r c patch =>
      cases r with
      | valid =>
          simp only [Option.some.injEq] at he
          exact he ▸ ht
      | invalid => cases he
      | needs_review => cases he
      | unpatchable => cases he

/-- Every StateManager mutation of one pipeline iteration is a legal
transition from the map it mutates. -/
theorem iteration_chain (inp : IterationInput) (m : StateMap) :
    List.Chain LegalStep m (iterationStates inp m) := by
  by_cases h0 : inp.threads = []
  · simp only [iterationStates, if_pos h0]
    exact List.Chain.nil
  · by_cases h1 : validIds inp ≠ [] ∧ inp.dryRun = false
    · by_cases h2 : inp.patchOk = true
      · by_cases h3 : inp.ci = .success
        · simp only [iterationStates, if_neg h0, if_pos h1, if_pos h2, if_pos h3]
          exact List.Chain.cons (legalStep_markProcessing m inp.threads)
            (List.Chain.cons (legalStep_markPushed _ _ _) List.Chain.nil)
        · simp only [iterationStates, if_neg h0, if_pos h1, if_pos h2, if_neg h3]
          refine List.Chain.cons (legalStep_markProcessing m inp.threads)
            (List.Chain.cons (legalStep_markPushed _ _ _)
              (List.Chain.cons (legalStep_markFailed _ _ _ _ ?_) List.Chain.nil))
          intro t ht
          have hthreads : t ∈ inp.threads := validIds_subset inp t ht
          have hsome : ((markThreadsAsProcessing m inp.threads) t).isSome :=
            markProcessing_isSome_of_mem inp.threads m t hthreads
          rcases markPushed_mem inp.sha (validIds inp)
              (markThreadsAsProcessing m inp.threads) t ht hsome with ⟨st, hst, hstat, _⟩
          simp [effStatus, hst, hstat]
      · simp only [iterationStates, if_neg h0, if_pos h1, if_neg h2]
        exact List.Chain.cons (legalStep_markProcessing m inp.threads) List.Chain.nil
    · simp only [iterationStates, if_neg h0, if_neg h1]
      exact List.Chain.cons (legalStep_markProcessing m inp.threads) List.Chain.nil

/-- Claim C2: along every run of pipeline iterations from the empty
thread-state map, every individual StateManager mutation is legal: no
status changes directly from pending to resolved or rejected, and a
status becomes ci_failed only when the status immediately before the
mutation was pushed. -/
theorem pipeline_transition_legality (inps : List IterationInput) :
    List.Chain LegalStep emptyStateMap (pipelineStates emptyStateMap inps) := by
  suffices h : ∀ (m : StateMap), List.Chain LegalStep m (pipelineStates m inps) from
    h emptyStateMap
  induction inps with
  | nil => intro m; exact List.Chain.nil
  | cons inp rest ih =>
      intro m
      rw [pipelineStates]
      exact chain_append_getLastD LegalStep (iterationStates inp m) m _
        (iteration_chain inp m) (ih (iterationFinal inp m))

theorem validIds_nil_of_threads_nil (inp : IterationInput) (h : inp.threads = []) :
    validIds inp = [] := by
  unfold validIds
  rw [h]
  rfl

/-- Claim C1: when a batch of valid fixes was applied, committed and
pushed and the CI wait returns a non-success outcome, the iteration
issues exactly one revert, of the single batch commit; every thread of
the batch ends ci_failed with the lastError text and the CI run URL
attached; exactly one CI-failure explanation comment is posted per
thread of the batch; no thread is resolved; and the resolved count of
the iteration is 0. -/
theorem ci_failure_iteration (inp : IterationInput) (m0 : StateMap)
    (hv : validIds inp ≠ []) (hdry : inp.dryRun = false)
    (hpatch : inp.patchOk = true) (hci : inp.ci ≠ .success) :
    ((iterationEffects inp).filter isRevert = [Effect.revertCommit inp.sha])
    ∧ (∀ tid ∈ validIds inp, ∃ st, iterationFinal inp m0 tid = some st ∧
        st.status = .ci_failed ∧ st.lastError = some "CI check failed" ∧
        st.ciRunUrl = some (ciUrl inp.repo inp.prNumber inp.sha))
    ∧ ((iterationEffects inp).filter isCiFailureComment =
        (validIds inp).map fun tid =>
          Effect.postComment tid (.ciFailure (ciUrl inp.repo inp.prNumber inp.sha)))
    ∧ ((iterationEffects inp).filter isResolveEffect = [])
    ∧ (iterationResult inp).resolved = 0 := by
  have hthreads : ¬(inp.threads = []) := fun h0 =>
    hv (validIds_nil_of_threads_nil inp h0)
  have hcond : validIds inp ≠ [] ∧ inp.dryRun = false := ⟨hv, hdry⟩
  refine ⟨?_, ?_, ?_, ?_, ?_⟩
  · have e1 : ((validIds inp).map fun tid =>
        Effect.postComment tid (.ciFailure (ciUrl inp.repo inp.prNumber inp.sha))).filter
          isRevert = [] := filter_map_nil _ _ _ (fun a => rfl)
    have e2 : ((invalidIds inp).map fun tid =>
        Effect.postComment tid .invalidExplanation).filter isRevert = [] :=
      filter_map_nil _ _ _ (fun a => rfl)
    have e3 : ((needsReviewEntries inp).map fun p =>
        Effect.postComment p.1 (.needsReviewExplanation p.2)).filter isRevert = [] :=
      filter_map_nil _ _ _ (fun a => rfl)
    simp [iterationEffects, hthreads, hcond, hpatch, hci, hdry, List.filter_append,
      e1, e2, e3, isRevert]
  · intro tid ht
    have hstates : iterationFinal inp m0 =
        markThreadsAsFailed
          (markThreadsAsPushed (markThreadsAsProcessing m0 inp.threads)
            (validIds inp) inp.sha)
          (validIds inp) "CI check failed"
          (some (ciUrl inp.repo inp.prNumber inp.sha)) := by
      simp [iterationFinal, iterationStates, hthreads, hcond, hpatch, hci]
    have hthread : tid ∈ inp.threads := validIds_subset inp tid ht
    have hsome1 : ((markThreadsAsProcessing m0 inp.threads) tid).isSome :=
      markProcessing_isSome_of_mem inp.threads m0 tid hthread
    rcases markPushed_mem inp.sha (validIds inp)
        (markThreadsAsProcessing m0 inp.threads) tid ht hsome1 with ⟨st2, hst2, _, _⟩
    have hsome2 : ((markThreadsAsPushed (markThreadsAsProcessing m0 inp.threads)
        (validIds inp) inp.sha) tid).isSome := by rw [hst2]; rfl
    rcases markFailed_mem "CI check failed"
        (some (ciUrl inp.repo inp.prNumber inp.sha)) (validIds inp)
        (markThreadsAsPushed (markThreadsAsProcessing m0 inp.threads)
          (validIds inp) inp.sha) tid ht hsome2 with ⟨st3, hst3, hs3, he3, hu3⟩
    exact ⟨st3, hstates ▸ hst3, hs3, he3, hu3⟩
  · have e1 : ((validIds inp).map fun tid =>
        Effect.postComment tid (.ciFailure (ciUrl inp.repo inp.prNumber inp.sha))).filter
          isCiFailureComment =
        (validIds inp).map fun tid =>
          Effect.postComment tid (.ciFailure (ciUrl inp.repo inp.prNumber inp.sha)) :=
      filter_map_all _ _ _ (fun a => rfl)
    have e2 : ((invalidIds inp).map fun tid =>
        Effect.postComment tid .invalidExplanation).filter isCiFailureComment = [] :=
      filter_map_nil _ _ _ (fun a => rfl)
    have e3 : ((needsReviewEntries inp).map fun p =>
        Effect.postComment p.1 (.needsReviewExplanation p.2)).filter
          isCiFailureComment = [] :=
      filter_map_nil _ _ _ (fun a => rfl)
    simp [iterationEffects, hthreads, hcond, hpatch, hci, hdry, List.filter_append,
      e1, e2, e3, isCiFailureComment]
  · have e1 : ((validIds inp).map fun tid =>
        Effect.postComment tid (.ciFailure (ciUrl inp.repo inp.prNumber inp.sha))).filter
          isResolveEffect = [] := filter_map_nil _ _ _ (fun a => rfl)
    have e2 : ((invalidIds inp).map fun tid =>
        Effect.postComment tid .invalidExplanation).filter isResolveEffect = [] :=
      filter_map_nil _ _ _ (fun a => rfl)
    have e3 : ((needsReviewEntries inp).map fun p =>
        Effect.postComment p.1 (.needsReviewExplanation p.2)).filter
          isResolveEffect = [] :=
      filter_map_nil _ _ _ (fun a => rfl)
    simp [iterationEffects, hthreads, hcond, hpatch, hci, hdry, List.filter_append,
      e1, e2, e3, isResolveEffect]
  · simp [iterationResult, hthreads, hcond, hci]

theorem ci_failure_iteration_witness :
    ((iterationEffects inpC1).filter isRevert = [Effect.revertCommit inpC1.sha])
    ∧ (∀ tid ∈ validIds inpC1, ∃ st, iterationFinal inpC1 emptyStateMap tid = some st ∧
        st.status = .ci_failed ∧ st.lastError = some "CI check failed" ∧
        st.ciRunUrl = some (ciUrl inpC1.repo inpC1.prNumber inpC1.sha))
    ∧ ((iterationEffects inpC1).filter isCiFailureComment =
        (validIds inpC1).map fun tid =>
          Effect.postComment tid (.ciFailure (ciUrl inpC1.repo inpC1.prNumber inpC1.sha)))
    ∧ ((iterationEffects inpC1).filter isResolveEffect = [])
    ∧ (iterationResult inpC1).resolved = 0 :=
  ci_failure_iteration inpC1 emptyStateMap (by decide) rfl rfl (by decide)

/-! ### Rate limiter -/

theorem endRequestFailures_cons (cfg : RateLimitConfig) (s : RateLimiterState)
    (t : Rat) (ts : List Rat) :
    endRequestFailures cfg s (t :: ts) =
      endRequestFailures cfg (endRequest cfg false t s) ts := rfl

theorem endRequest_false_consecutiveErrors (cfg : RateLimitConfig) (t : Rat)
    (s : RateLimiterState) :
    (endRequest cfg false t s).consecutiveErrors = s.consecutiveErrors + 1 := rfl

theorem backoff_after_failures (cfg : RateLimitConfig) :
    ∀ (ts : List Rat) (tn : Rat) (s : RateLimiterState),
      (endRequestFailures cfg s (ts ++ [tn])).backoffUntil =
        tn + min cfg.maxBackoffMs
          (1000 * cfg.backoffMultiplier ^ (s.consecutiveErrors + ts.length + 1)) := by
  intro ts
  induction ts with
  | nil =>
      intro tn s
      simp [endRequestFailures, endRequest]
  | cons t ts ih =>
      intro tn s
      rw [List.cons_append, endRequestFailures_cons, ih tn (endRequest cfg false t s)]
      have he : (endRequest cfg false t s).consecutiveErrors + ts.length + 1 =
          s.consecutiveErrors + (t :: ts).length + 1 := by
        rw [endRequest_false_consecutiveErrors]
        simp
        omega
      rw [he]

/-- Claim C3: starting from a limiter with no recorded consecutive
errors, after n consecutive endRequest(false) calls with no intervening
success, backoffUntil minus the time of the n-th call equals
min(maxBackoffMs, 1000 x multiplier^n); and a single endRequest(true)
resets the consecutiveErrors counter to 0. -/
theorem backoff_monotonicity (cfg : RateLimitConfig) (s : RateLimiterState)
    (ts : List Rat) (tn : Rat) (h0 : s.consecutiveErrors = 0) :
    (endRequestFailures cfg s (ts ++ [tn])).backoffUntil - tn =
      min cfg.maxBackoffMs (1000 * cfg.backoffMultiplier ^ (ts ++ [tn]).length)
    ∧ (∀ (s2 : RateLimiterState) (t2 : Rat),
        (endRequest cfg true t2 s2).consecutiveErrors = 0) := by
  constructor
  · rw [backoff_after_failures cfg ts tn s, h0]
    simp
  · intro s2 t2
    rfl

theorem backoff_monotonicity_witness :
    (endRequestFailures cfgC3 initRateLimiter ([5] ++ [10])).backoffUntil - 10 =
      min cfgC3.maxBackoffMs (1000 * cfgC3.backoffMultiplier ^ ([5] ++ [(10 : Rat)]).length)
    ∧ (∀ (s2 : RateLimiterState) (t2 : Rat),
        (endRequest cfgC3 true t2 s2).consecutiveErrors = 0) :=
  backoff_monotonicity cfgC3 initRateLimiter [5] 10 rfl

/-- Claim C10: endRequest(true) resets consecutiveErrors to 0 but
leaves backoffUntil untouched, so checkLimit keeps denying requests
(with the backoff reason) at any time still inside the window, even
after a successful request; a window installed by handleRateLimitError
is likewise kept. -/
theorem success_keeps_backoff (cfg : RateLimitConfig) (s : RateLimiterState)
    (now now2 : Rat) (h : now2 < s.backoffUntil) :
    (endRequest cfg true now s).backoffUntil = s.backoffUntil
    ∧ (endRequest cfg true now s).consecutiveErrors = 0
    ∧ (checkLimit cfg now2 (endRequest cfg true now s)).1.allowed = false
    ∧ (checkLimit cfg now2 (endRequest cfg true now s)).1.reason = some .backoff
    ∧ (∀ (mins secs t0 : Rat),
        (endRequest cfg true now (handleRateLimitError mins secs t0 s)).backoffUntil =
          t0 + (mins * 60 + secs) * 1000) := by
  refine ⟨rfl, rfl, ?_, ?_, fun mins secs t0 => rfl⟩
  · simp [checkLimit, endRequest, h]
  · simp [checkLimit, endRequest, h]

theorem success_keeps_backoff_witness :
    (endRequest cfgC3 true 0 sC10).backoffUntil = sC10.backoffUntil
    ∧ (endRequest cfgC3 true 0 sC10).consecutiveErrors = 0
    ∧ (checkLimit cfgC3 5 (endRequest cfgC3 true 0 sC10)).1.allowed = false
    ∧ (checkLimit cfgC3 5 (endRequest cfgC3 true 0 sC10)).1.reason = some .backoff
    ∧ (∀ (mins secs t0 : Rat),
        (endRequest cfgC3 true 0 (handleRateLimitError mins secs t0 sC10)).backoffUntil =
          t0 + (mins * 60 + secs) * 1000) :=
  success_keeps_backoff cfgC3 sC10 0 5 (by norm_num [sC10])

/-! ### Worker pool -/

theorem mem_setAdd_self {W : Type} [DecidableEq W] (w : W) (l : List W) :
    w ∈ setAdd w l := by
  unfold setAdd
  by_cases h : w ∈ l
  · rw [if_pos h]; exact h
  · rw [if_neg h]; exact List.mem_cons_self w l

theorem mem_setAdd_of_mem {W : Type} [DecidableEq W] (w a : W) (l : List W)
    (h : w ∈ l) : w ∈ setAdd a l := by
  unfold setAdd
  by_cases ha : a ∈ l
  · rw [if_pos ha]; exact h
  · rw [if_neg ha]; exact List.mem_cons_of_mem a h

theorem acquireAll_no_available {W : Type} [DecidableEq W] :
    ∀ (callers : List Nat) (p : PoolState W), p.available = [] →
      acquireAll callers p =
        (callers.map fun _ => AcquireResult.queued,
         { p with waiting := p.waiting ++ callers }) := by
  intro callers
  induction callers with
  | nil => intro p _; simp [acquireAll]
  | cons c cs ih =>
      intro p hp
      have hacq : acquire c p = (.queued, { p with waiting := p.waiting ++ [c] }) := by
        unfold acquire
        rw [hp]
      have hrest := ih ({ p with waiting := p.waiting ++ [c] }) hp
      simp [acquireAll, hacq, hrest, List.append_assoc]

theorem acquireAll_immediate {W : Type} [DecidableEq W] :
    ∀ (ws : List W) (callers : List Nat) (busy : List W) (waiting : List Nat),
      ws.length ≤ callers.length →
      (acquireAll callers (⟨ws, busy, waiting⟩ : PoolState W)).1 =
          ws.map AcquireResult.immediate ++
            ((callers.drop ws.length).map fun _ => AcquireResult.queued)
        ∧ (acquireAll callers (⟨ws, busy, waiting⟩ : PoolState W)).2.available = []
        ∧ (acquireAll callers (⟨ws, busy, waiting⟩ : PoolState W)).2.waiting =
            waiting ++ callers.drop ws.length := by
  intro ws
  induction ws with
  | nil =>
      intro callers busy waiting _
      have h := acquireAll_no_available callers (⟨[], busy, waiting⟩ : PoolState W) rfl
      rw [h]
      exact ⟨by simp, rfl, rfl⟩
  | cons w ws ih =>
      intro callers busy waiting hlen
      cases callers with
      | nil => simp at hlen
      | cons c cs =>
          have hacq : acquire c (⟨w :: ws, busy, waiting⟩ : PoolState W) =
              (.immediate w, (⟨ws, setAdd w busy, waiting⟩ : PoolState W)) := rfl
          have hlen2 : ws.length ≤ cs.length := by simpa using hlen
          have h := ih cs (setAdd w busy) waiting hlen2
          refine ⟨?_, ?_, ?_⟩
          · simp [acquireAll, hacq, h.1]
          · simp [acquireAll, hacq, h.2.1]
          · simp [acquireAll, hacq, h.2.2]

theorem releaseAll_handoff {W : Type} [DecidableEq W] :
    ∀ (rs : List W) (p : PoolState W),
      p.available = [] → rs.length ≤ p.waiting.length → (∀ w ∈ rs, w ∈ p.busy) →
      (releaseAll rs p).1 =
          ((p.waiting.take rs.length).zip rs).map
            (fun q => ReleaseResult.handedToWaiter q.1 q.2)
        ∧ (releaseAll rs p).2.available = []
        ∧ (releaseAll rs p).2.waiting = p.waiting.drop rs.length := by
  intro rs
  induction rs with
  | nil => intro p hav _ _; exact ⟨rfl, hav, rfl⟩
  | cons r rs ih =>
      intro p hav hlen hmem
      cases hw : p.waiting with
      | nil => rw [hw] at hlen; simp at hlen
      | cons wtr restW =>
          have hrbusy : r ∈ p.busy := hmem r (List.mem_cons_self r rs)
          have hrel : release r p =
              (.handedToWaiter wtr r,
               { p with busy := setAdd r (p.busy.erase r), waiting := restW }) := by
            unfold release
            rw [if_pos hrbusy, hw]
          have hmem2 : ∀ w ∈ rs, w ∈ setAdd r (p.busy.erase r) := by
            intro w hwmem
            have h1 := hmem w (List.mem_cons_of_mem r hwmem)
            by_cases hwr : w = r
            · subst hwr; exact mem_setAdd_self w _
            · exact mem_setAdd_of_mem w r _ ((List.mem_erase_of_ne hwr).mpr h1)
          have hlen2 : rs.length ≤ restW.length := by
            rw [hw] at hlen; simpa using hlen
          have h := ih ({ p with busy := setAdd r (p.busy.erase r), waiting := restW })
            hav hlen2 hmem2
          refine ⟨?_, ?_, ?_⟩
          · simp [releaseAll, hrel, h.1, hw]
          · simp [releaseAll, hrel, h.2.1]
          · simp [releaseAll, hrel, h.2.2, hw]

/-- Claim C4: against a pool of K distinct workers, the first K of
N > K acquire() calls resolve immediately with the K distinct workers
in order, the remaining N-K enqueue in FIFO order, and each subsequent
release() of a busy worker hands its worker directly to the frontmost
waiter - the waiters resolve in their enqueue order and the available
list stays empty throughout, so no handed-off worker re-enters it. -/
theorem pool_fifo {W : Type} [DecidableEq W] (ws : List W) (callers : List Nat)
    (hnd : ws.Nodup) (hlt : ws.length < callers.length) :
    ((acquireAll callers (initPool ws)).1 =
        ws.map AcquireResult.immediate ++
          ((callers.drop ws.length).map fun _ => AcquireResult.queued))
    ∧ (ws.map AcquireResult.immediate).Nodup
    ∧ (acquireAll callers (initPool ws)).2.available = []
    ∧ (acquireAll callers (initPool ws)).2.waiting = callers.drop ws.length
    ∧ (∀ rs : List W,
        rs.length ≤ (acquireAll callers (initPool ws)).2.waiting.length →
        (∀ w ∈ rs, w ∈ (acquireAll callers (initPool ws)).2.busy) →
        (releaseAll rs (acquireAll callers (initPool ws)).2).1 =
            (((acquireAll callers (initPool ws)).2.waiting.take rs.length).zip rs).map
              (fun q => ReleaseResult.handedToWaiter q.1 q.2)
          ∧ (releaseAll rs (acquireAll callers (initPool ws)).2).2.available = []
          ∧ (releaseAll rs (acquireAll callers (initPool ws)).2).2.waiting =
              (acquireAll callers (initPool ws)).2.waiting.drop rs.length) := by
  have h := acquireAll_immediate ws callers [] [] (le_of_lt hlt)
  have hinit : initPool ws = (⟨ws, [], []⟩ : PoolState W) := rfl
  rw [hinit]
  refine ⟨h.1, ?_, h.2.1, by simpa using h.2.2, ?_⟩
  · exact hnd.map fun a b hab => by injection hab
  · intro rs hlen hmem
    exact releaseAll_handoff rs _ h.2.1 hlen hmem

theorem pool_fifo_witness :
    ((acquireAll [5, 6, 7] (initPool ([10, 11] : List Nat))).1 =
        [10, 11].map AcquireResult.immediate ++
          (([5, 6, 7].drop 2).map fun _ => AcquireResult.queued))
    ∧ (acquireAll [5, 6, 7] (initPool ([10, 11] : List Nat))).2.waiting =
        [5, 6, 7].drop 2 :=
  ⟨(pool_fifo [10, 11] [5, 6, 7] (by decide) (by decide)).1,
   (pool_fifo [10, 11] [5, 6, 7] (by decide) (by decide)).2.2.2.1⟩

/-- Claim C8: one evaluation of the drain() loop head returns exactly
when the pool is fully idle (no busy worker, no waiter); and the
polling loop returns at an idle observation, while it raises rather
than polling on at an observation where the pool holds zero workers in
total and at least one acquire() call is waiting. -/
theorem drain_idle_or_raise {W : Type} (p : PoolState W) (rest : List (PoolState W)) :
    (drainStep p = .done ↔ (p.busy = [] ∧ p.waiting = []))
    ∧ ((p.busy = [] ∧ p.waiting = []) → drainRun (p :: rest) = .done)
    ∧ ((p.available.length + p.busy.length = 0 ∧ p.waiting ≠ []) →
        drainRun (p :: rest) = .raise) := by
  have hstep : drainStep p = .done ↔ (p.busy = [] ∧ p.waiting = []) := by
    unfold drainStep
    by_cases hc : p.busy.length > 0 ∨ p.waiting.length > 0
    · rw [if_pos hc]
      constructor
      · intro h
        by_cases hin : p.available.length + p.busy.length = 0 ∧ p.waiting.length > 0
        · rw [if_pos hin] at h; cases h
        · rw [if_neg hin] at h; cases h
      · rintro ⟨hb, hw⟩
        rcases hc with hc | hc
        · rw [hb] at hc; cases hc
        · rw [hw] at hc; cases hc
    · rw [if_neg hc]
      push_neg at hc
      constructor
      · intro _
        exact ⟨List.length_eq_zero.mp (Nat.le_zero.mp hc.1),
               List.length_eq_zero.mp (Nat.le_zero.mp hc.2)⟩
      · intro _; rfl
  refine ⟨hstep, ?_, ?_⟩
  · intro hidle
    have hd : drainStep p = .done := hstep.mpr hidle
    simp [drainRun, hd]
  · rintro ⟨h0, hw⟩
    have hwlen : p.waiting.length > 0 := List.length_pos.mpr hw
    have hr : drainStep p = .raise := by
      unfold drainStep
      rw [if_pos (Or.inr hwlen), if_pos ⟨h0, hwlen⟩]
    simp [drainRun, hr]

theorem drain_witness :
    drainRun (({ available := [20], busy := [], waiting := [] } : PoolState Nat) :: []) =
        .done
    ∧ drainRun (({ available := [], busy := [], waiting := [7] } : PoolState Nat) :: []) =
        .raise :=
  ⟨(drain_idle_or_raise ({ available := [20], busy := [], waiting := [] } : PoolState Nat)
      []).2.1 (by decide),
   (drain_idle_or_raise ({ available := [], busy := [], waiting := [7] } : PoolState Nat)
      []).2.2 (by decide)⟩

/-! ### Message bus -/

theorem reqRunFrom_cons (mid : String) (s : ReqRuntime) (e : BusEvent)
    (es : List BusEvent) :
    reqRunFrom mid s (e :: es) = reqRunFrom mid (reqStep mid s e) es := rfl

theorem reqStep_preserves_outcome (mid : String) (s : ReqRuntime) (e : BusEvent)
    (o : ReqOutcome) (h : s.outcome = some o) : (reqStep mid s e).outcome = some o := by
  cases e with
  | response c q =>
      simp only [reqStep]
      by_cases h1 : s.handlerOn = false
      · rw [if_pos h1]; exact h
      · rw [if_neg h1]
        by_cases h2 : c ≠ mid
        · rw [if_pos h2]; exact h
        · rw [if_neg h2]; simp [h]
  | timeoutFire =>
      simp only [reqStep]
      by_cases h1 : s.timerOn = false
      · rw [if_pos h1]; exact h
      · rw [if_neg h1]; simp [h]

theorem reqRunFrom_preserves_outcome (mid : String) :
    ∀ (events : List BusEvent) (s : ReqRuntime) (o : ReqOutcome),
      s.outcome = some o → (reqRunFrom mid s events).outcome = some o := by
  intro events
  induction events with
  | nil => intro s o h; exact h
  | cons e es ih =>
      intro s o h
      rw [reqRunFrom_cons]
      exact ih (reqStep mid s e) o (reqStep_preserves_outcome mid s e o h)

theorem reqRunFrom_resolved_mem (mid : String) (p : String) :
    ∀ (events : List BusEvent) (s : ReqRuntime),
      (reqRunFrom mid s events).outcome = some (.resolvedWith p) →
        s.outcome = some (.resolvedWith p) ∨ BusEvent.response mid p ∈ events := by
  intro events
  induction events with
  | nil => intro s h; left; exact h
  | cons e es ih =>
      intro s h
      rw [reqRunFrom_cons] at h
      rcases ih (reqStep mid s e) h with h1 | h1
      · cases e with
        | response c q =>
            by_cases hh : s.handlerOn = false
            · simp only [reqStep] at h1; rw [if_pos hh] at h1; left; exact h1
            · by_cases hc : c ≠ mid
              · simp only [reqStep] at h1; rw [if_neg hh, if_pos hc] at h1; left; exact h1
              · simp only [reqStep] at h1
                rw [if_neg hh, if_neg hc] at h1
                simp only [Option.some.injEq] at h1
                cases hso : s.outcome with
                | some o =>
                    rw [hso] at h1
                    simp only [Option.getD_some] at h1
                    left
                    rw [h1]
                | none =>
                    rw [hso] at h1
                    simp only [Option.getD_none, ReqOutcome.resolvedWith.injEq] at h1
                    right
                    have hcm : c = mid := not_not.mp hc
                    rw [← hcm, ← h1]
                    exact List.mem_cons_self _ _
        | timeoutFire =>
            by_cases ht : s.timerOn = false
            · simp only [reqStep] at h1; rw [if_pos ht] at h1; left; exact h1
            · simp only [reqStep] at h1
              rw [if_neg ht] at h1
              simp only [Option.some.injEq] at h1
              cases hso : s.outcome with
              | some o =>
                  rw [hso] at h1
                  simp only [Option.getD_some] at h1
                  left
                  rw [h1]
              | none =>
                  rw [hso] at h1
                  simp only [Option.getD_none] at h1
                  cases h1
      · right; exact List.mem_cons_of_mem e h1

theorem reqRunFrom_clean (mid : String) :
    ∀ (events : List BusEvent) (s : ReqRuntime),
      (s.outcome ≠ none → s.handlerOn = false ∧ s.pendingOn = false) →
      ((reqRunFrom mid s events).outcome ≠ none →
        (reqRunFrom mid s events).handlerOn = false ∧
          (reqRunFrom mid s events).pendingOn = false) := by
  intro events
  induction events with
  | nil => intro s h; exact h
  | cons e es ih =>
      intro s h
      rw [reqRunFrom_cons]
      apply ih
      cases e with
      | response c q =>
          by_cases hh : s.handlerOn = false
          · simp only [reqStep]; rw [if_pos hh]; exact h
          · by_cases hc : c ≠ mid
            · simp only [reqStep]; rw [if_neg hh, if_pos hc]; exact h
            · simp only [reqStep]; rw [if_neg hh, if_neg hc]; intro _; exact ⟨rfl, rfl⟩
      | timeoutFire =>
          by_cases ht : s.timerOn = false
          · simp only [reqStep]; rw [if_pos ht]; exact h
          · simp only [reqStep]; rw [if_neg ht]; intro _; exact ⟨rfl, rfl⟩

/-- Claim C5: over every event sequence, a request() promise resolves
only when a response whose correlationId equals the generated message
id arrives on the response channel; a response with any other
correlationId leaves the request state untouched; once the timeout has
rejected the request, no later events can make it resolve (the settled
outcome is permanent); and whenever the request has settled, on either
path, the pending-response registration and the channel handler have
been removed. -/
theorem request_correlation (mid : String) (events : List BusEvent) :
    (∀ p, (reqRun mid events).outcome = some (.resolvedWith p) →
        BusEvent.response mid p ∈ events)
    ∧ (∀ (s : ReqRuntime) (c q : String), c ≠ mid → reqStep mid s (.response c q) = s)
    ∧ (∀ more, (reqRun mid events).outcome = some .rejectedTimeout →
        (reqRun mid (events ++ more)).outcome = some .rejectedTimeout)
    ∧ ((reqRun mid events).outcome ≠ none →
        (reqRun mid events).handlerOn = false ∧ (reqRun mid events).pendingOn = false) := by
  refine ⟨?_, ?_, ?_, ?_⟩
  · intro p h
    rcases reqRunFrom_resolved_mem mid p events initReq h with h1 | h1
    · cases h1
    · exact h1
  · intro s c q hc
    simp only [reqStep]
    by_cases hh : s.handlerOn = false
    · rw [if_pos hh]
    · rw [if_neg hh, if_pos hc]
  · intro more h
    have happ : reqRun mid (events ++ more) = reqRunFrom mid (reqRun mid events) more := by
      unfold reqRun reqRunFrom
      rw [List.foldl_append]
    rw [happ]
    exact reqRunFrom_preserves_outcome mid more (reqRun mid events) _ h
  · exact reqRunFrom_clean mid events initReq (fun h => absurd rfl h)

theorem request_correlation_witness :
    BusEvent.response "mid1" "pay" ∈
      [BusEvent.response "other" "x", BusEvent.response "mid1" "pay"] :=
  (request_correlation "mid1"
      [BusEvent.response "other" "x", BusEvent.response "mid1" "pay"]).1
    "pay" (by decide)

theorem getLast?_pushLog (log : List AgentMessage) (msg : AgentMessage) :
    (pushLog log msg).getLast? = some msg := by
  unfold pushLog
  by_cases h : MAX_MESSAGE_LOG_SIZE < (log ++ [msg]).length
  · rw [if_pos h]
    cases log with
    | nil => simp [MAX_MESSAGE_LOG_SIZE] at h
    | cons a as => simp
  · rw [if_neg h]
    exact List.getLast?_concat log

/-- Claim C6 counterexample: respond() does not append the response
message it constructs to the shared message log; responding on an
empty log leaves the log empty. -/
theorem respond_no_append_counterexample :
    (respond { messageLog := [] } "r1" 1 msgC6 "result").1.messageLog = [] := rfl

/-- Claim C6 (amended): every message passed through send() and every
request message emitted on the request path is appended to the shared
message log, becoming its last entry; respond() constructs and emits
the correlated response on the private response channel of the
original sender but does not append it, leaving the log unchanged. -/
theorem log_append_amended (bus : BusState) (newId : String) (now : Rat)
    (draft : DraftMessage) (orig : AgentMessage) (payload : String) :
    ((send bus newId now draft).1.messageLog.getLast? = some (send bus newId now draft).2)
    ∧ ((requestEmit bus newId now draft).1.messageLog.getLast? =
        some (requestEmit bus newId now draft).2)
    ∧ (respond bus newId now orig payload).1.messageLog = bus.messageLog
    ∧ (respond bus newId now orig payload).2.correlationId = some orig.id
    ∧ (respond bus newId now orig payload).2.target = orig.source ++ "-response" :=
  ⟨getLast?_pushLog bus.messageLog _, getLast?_pushLog bus.messageLog _, rfl, rfl, rfl⟩

/-! ### Workflow state machine -/

theorem wf_invariant (s : WorkflowState) (h : WfReachable s) :
    s.currentIndex ≤ s.threads.length := by
  induction h with
  | created repo prNumber threads now => exact Nat.zero_le _
  | advanced now hs ih => exact min_le_right _ _
  | decided tid isValid reason now hs ih => exact ih
  | applied tid sha now hs ih => exact ih

/-- Claim C7: in every reachable workflow state, currentIndex never
exceeds threads.length; advance() never decreases currentIndex, and it
is the only mutator that changes it (recordDecision and
recordApplication leave it unchanged); the workflow is complete exactly
when currentIndex equals threads.length, and advance() reports that
threads remain iff currentIndex is still strictly below threads.length
afterwards. -/
theorem workflow_monotonic (s : WorkflowState) (hr : WfReachable s) (now : Rat) :
    s.currentIndex ≤ s.threads.length
    ∧ s.currentIndex ≤ (advance s now).1.currentIndex
    ∧ (∀ tid isValid reason now2,
        (recordDecision s tid isValid reason now2).currentIndex = s.currentIndex)
    ∧ (∀ tid sha now2, (recordApplication s tid sha now2).currentIndex = s.currentIndex)
    ∧ ((advance s now).2 = true ↔
        (advance s now).1.currentIndex < (advance s now).1.threads.length)
    ∧ ((advance s now).1.currentIndex = (advance s now).1.threads.length ↔
        (advance s now).2 = false) := by
  have hinv : s.currentIndex ≤ s.threads.length := wf_invariant s hr
  have hadv : (advance s now).1.currentIndex =
      min (s.currentIndex + 1) s.threads.length := rfl
  have hthr : (advance s now).1.threads = s.threads := rfl
  have hb : (advance s now).2 =
      decide ((advance s now).1.currentIndex < (advance s now).1.threads.length) := rfl
  refine ⟨hinv, ?_, fun _ _ _ _ => rfl, fun _ _ _ => rfl, ?_, ?_⟩
  · rw [hadv]
    exact le_min (Nat.le_succ _) hinv
  · rw [hb]
    exact decide_eq_true_iff
  · rw [hb, hadv, hthr]
    rcases Nat.lt_or_ge (min (s.currentIndex + 1) s.threads.length)
        s.threads.length with hlt | hge
    · simp [hlt, Nat.ne_of_lt hlt]
    · have heq : min (s.currentIndex + 1) s.threads.length = s.threads.length :=
        Nat.le_antisymm (min_le_right _ _) hge
      simp [heq]

theorem workflow_monotonic_witness :
    wfC7.currentIndex ≤ wfC7.threads.length
    ∧ wfC7.currentIndex ≤ (advance wfC7 1).1.currentIndex
    ∧ (∀ tid isValid reason now2,
        (recordDecision wfC7 tid isValid reason now2).currentIndex = wfC7.currentIndex)
    ∧ (∀ tid sha now2, (recordApplication wfC7 tid sha now2).currentIndex = wfC7.currentIndex)
    ∧ ((advance wfC7 1).2 = true ↔
        (advance wfC7 1).1.currentIndex < (advance wfC7 1).1.threads.length)
    ∧ ((advance wfC7 1).1.currentIndex = (advance wfC7 1).1.threads.length ↔
        (advance wfC7 1).2 = false) :=
  workflow_monotonic wfC7 (WfReachable.created "o/r" 3 ["a"] 0) 1

/-- Claim C9 counterexample: markThreadsAsPushed referencing the absent
thread id t1 does not create a ThreadState instance for it. -/
theorem lazyCreation_counterexample :
    markThreadsAsPushed emptyStateMap ["t1"] "sha1" "t1" = none := rfl

/-- Claim C9 (amended): markThreadsAsProcessing creates an absent
thread lazily from the default instance (status pending, attempts 0),
marking it processing with attempts incremented from that default;
markThreadsAsPushed and markThreadsAsFailed do not create absent
threads, they leave them absent. -/
theorem lazyCreation_amended (m : StateMap) (tid : String) (h : m tid = none) :
    markThreadsAsProcessing m [tid] tid =
      some ({ defaultThreadState tid with
        status := .processing,
        attempts := (defaultThreadState tid).attempts + 1 })
    ∧ (∀ tids sha, markThreadsAsPushed m tids sha tid = none)
    ∧ (∀ tids err url, markThreadsAsFailed m tids err url tid = none) := by
  refine ⟨?_, ?_, ?_⟩
  · simp [markThreadsAsProcessing, processOne, h]
  · intro tids sha
    exact markPushed_none sha tids m tid h
  · intro tids err url
    exact markFailed_none err url tids m tid h

theorem lazyCreation_witness :
    markThreadsAsProcessing emptyStateMap ["t1"] "t1" =
      some ({ defaultThreadState "t1" with
        status := .processing,
        attempts := (defaultThreadState "t1").attempts + 1 })
    ∧ markThreadsAsPushed emptyStateMap ["t1"] "sha9" "t1" = none
    ∧ markThreadsAsFailed emptyStateMap ["t1"] "err" none "t1" = none :=
  ⟨(lazyCreation_amended emptyStateMap "t1" rfl).1,
   (lazyCreation_amended emptyStateMap "t1" rfl).2.1 ["t1"] "sha9",
   (lazyCreation_amended emptyStateMap "t1" rfl).2.2 ["t1"] "err" none⟩

end RabbitOrch
